import Mathlib

/-!
# Verification of the `tbl` table-driven-test helper (gdey/tbl, src/tbl.go)

Shallow embedding of `src/tbl.go`.  Go's reflection layer is modelled by a
small universe of runtime types (`GoType`) and typed runtime values
(`GoValue`).  The package-level flag `tblTest.RunOrder` (a `*string` that may
be nil) is passed to `Run` explicitly as an `Option String`, and the output of
`rand.Perm(len(tc.cases))` is passed explicitly as a `perm : List Nat`
argument (theorems about the random branch hypothesise that it is a
permutation of `0 .. n-1`, which `rand.Perm` guarantees).

Panics raised through `panicF` are modelled as `Except.error`; the message
strings keep the fixed part of the Go format strings (the interpolated values
are dropped, no claim depends on them).

`Run` in Go returns only the invocation count; the embedding returns the
count together with the trace of invocations, i.e. the list of
`(index, testcase)` pairs in the order the test function was called with
them.  The trace is pure instrumentation recording the observable calls of
the callable; the count is computed exactly as the Go `count` variable is.
-/

set_option autoImplicit false

namespace Tbl

/-- Model of `reflect.Type`: the concrete Go runtime types that matter to
`tbl.go` are `int`, `bool`, and arbitrary other named types. -/
inductive GoType where
  | int
  | bool
  | other (name : String)
  deriving DecidableEq, Repr

/-- Model of a valid (non-`Invalid`) `reflect.Value`: a runtime type together
with an abstract payload identifying the value. -/
structure GoValue where
  typ : GoType
  payload : Nat
  deriving DecidableEq, Repr

instance : Inhabited GoValue := ⟨⟨GoType.other "", 0⟩⟩

/-- Model of an `interface{}` argument to `Cases`: `none` is an untyped `nil`
(for which `reflect.ValueOf(x).Kind() == reflect.Invalid`), `some v` is a
valid value. -/
abbrev GoIface : Type := Option GoValue

/-- `type Test struct` of tbl.go: the case values, the shared element type
(`vType`, nil — here `none` — while no element has been accepted), and the
`InOrder` flag. -/
structure Test where
  cases : List GoValue
  vType : Option GoType
  InOrder : Bool
  deriving DecidableEq, Repr

/-- Model of the `function interface{}` argument of `Run`: either not a
function at all, or a function with the given parameter and result type
lists.  Its behaviour takes the index parameter (`some idx` when the function
has two parameters, `none` when it has one) and the testcase value, and
yields the `bool` result (ignored by `Run` when the function has no result).
-/
inductive FuncVal where
  | notFunc
  | fn (fnIn : List GoType) (fnOut : List GoType) (beh : Option Nat → GoValue → Bool)

/-- The loop body of `Cases`: for each element, `reflect.Invalid` aborts;
the first element fixes `vType`; later elements must have exactly that type.
Accepted values are appended to `tc.cases` in input order. -/
def casesLoop (i : Nat) (tc : Test) : List GoIface → Except String Test
  | [] => Except.ok tc
  | none :: _ =>
      Except.error "Testcase is not a valid test case."
  | some v :: rest =>
      match tc.vType with
      | none => casesLoop (i + 1) { tc with vType := some v.typ, cases := tc.cases ++ [v] } rest
      | some t =>
          if v.typ ≠ t then
            Except.error "Testcases should be of the type of the first element."
          else
            casesLoop (i + 1) { tc with cases := tc.cases ++ [v] } rest

/-- `func Cases(testcases ...interface{}) *Test`. -/
def Cases (testcases : List GoIface) : Except String Test :=
  casesLoop 0 { cases := [], vType := none, InOrder := false } testcases

/-- One decimal digit, as in `strconv`'s per-character digit check. -/
def digVal (c : Char) : Option Nat :=
  if 48 ≤ c.toNat ∧ c.toNat ≤ 57 then some (c.toNat - 48) else none

/-- Accumulating decimal parse of `strconv.ParseUint`'s digit loop. -/
def parseDigitsAux (acc : Nat) : List Char → Option Nat
  | [] => some acc
  | c :: rest =>
      match digVal c with
      | some d => parseDigitsAux (acc * 10 + d) rest
      | none => none

/-- All-digit parse; the empty string is a syntax error. -/
def parseDigits : List Char → Option Nat
  | [] => none
  | l => parseDigitsAux 0 l

/-- `strconv.ParseInt(s, 10, 64)`: optional leading sign, decimal digits,
error (`none`) on empty input, on any non-digit, and on 64-bit overflow. -/
def parseInt64 (s : List Char) : Option Int :=
  match s with
  | '+' :: rest =>
      match parseDigits rest with
      | some n => if n ≤ 2 ^ 63 - 1 then some (n : Int) else none
      | none => none
  | '-' :: rest =>
      match parseDigits rest with
      | some n => if n ≤ 2 ^ 63 then some (-(n : Int)) else none
      | none => none
  | _ =>
      match parseDigits s with
      | some n => if n ≤ 2 ^ 63 - 1 then some (n : Int) else none
      | none => none

/-- `strings.Split(s, ",")` on the character list of a string: cut at every
comma, keeping empty fields. -/
def splitChars (acc : List Char) : List Char → List (List Char)
  | [] => [acc.reverse]
  | c :: rest =>
      if c = ',' then acc.reverse :: splitChars [] rest
      else splitChars (acc ++ [c]) rest

/-- `func runOrder() (idx []int, ok bool)`: nil or empty flag means no
override; otherwise split on commas and keep only the tokens that parse. -/
def runOrder (runorder : Option String) : List Int × Bool :=
  match runorder with
  | none => ([], false)
  | some s =>
      if s = "" then ([], false)
      else
        let idx := (splitChars [] s.data).filterMap parseInt64
        (idx, decide (0 < idx.length))

/-- `func runTest(fn, idx, testcase, tp, r)`: call the function with
`(idx, testcase)` or `(testcase)` according to `tp`; the result is the
returned bool when `r`, and `true` (keep going) otherwise. -/
def runTest (beh : Option Nat → GoValue → Bool) (idx : Nat) (testcase : GoValue)
    (tp r : Bool) : Bool :=
  let res := if tp then beh (some idx) testcase else beh none testcase
  if r then res else true

/-- The `fnType.NumOut()` switch of `Run` (tbl.go lines 125–135): no result
means "always continue", one result must be exactly `bool`. -/
def classifyOut (fnOut : List GoType) (twoInParams : Bool) :
    Except String (Bool × Bool) :=
  match fnOut with
  | [] => Except.ok (twoInParams, false)
  | [o0] =>
      if o0 ≠ GoType.bool then
        Except.error "Expected out parameter of test function to be a boolean."
      else
        Except.ok (twoInParams, true)
  | _ => Except.error "Expected there to be not out parameters or a boolean out parameter to test function."

/-- The parameter/return shape checks of `Run` (tbl.go lines 102–135), in
source order: the `fnType.NumIn()` switch first (any failure there panics
before the result switch runs), then the `NumOut()` switch.  Returns
`(twoInParams, hasOutParam)`. -/
def classify (fnIn fnOut : List GoType) (vType : Option GoType) :
    Except String (Bool × Bool) :=
  match fnIn with
  | [p0] =>
      if some p0 ≠ vType then
        Except.error "Incorrect parameter for test function given."
      else
        classifyOut fnOut false
  | [p0, p1] =>
      if p0 ≠ GoType.int then
        Except.error "Incorrect parameter one for test function given."
      else if some p1 ≠ vType then
        Except.error "Incorrect parameter two for test function given."
      else
        classifyOut fnOut true
  | _ => Except.error "Incorrect number of parameters given."

/-- The skip guard of the override loop: `idx < 0 || idx >= len(tc.cases)`. -/
def skipIdx (n : Nat) (idx : Int) : Bool :=
  decide (idx < 0) || decide ((n : Int) ≤ idx)

/-- The `tblTest.RunOrder` loop of `Run` (lines 142–150): skip out-of-range
indices, otherwise count the call and stop on a `false` result.  Returns
`(count, trace)`. -/
def runOverrideLoop (cases : List GoValue) (beh : Option Nat → GoValue → Bool)
    (tp r : Bool) : List Int → Nat × List (Nat × GoValue)
  | [] => (0, [])
  | idx :: rest =>
      if skipIdx cases.length idx then runOverrideLoop cases beh tp r rest
      else
        let i := idx.toNat
        let c := cases.getD i default
        if runTest beh i c tp r then
          let res := runOverrideLoop cases beh tp r rest
          (res.1 + 1, (i, c) :: res.2)
        else (1, [(i, c)])

/-- The `InOrder` loop of `Run` (lines 154–159): `for idx, testcase := range
tc.cases`. -/
def runSeqLoop (beh : Option Nat → GoValue → Bool) (tp r : Bool) :
    Nat → List GoValue → Nat × List (Nat × GoValue)
  | _, [] => (0, [])
  | i, c :: rest =>
      if runTest beh i c tp r then
        let res := runSeqLoop beh tp r (i + 1) rest
        (res.1 + 1, (i, c) :: res.2)
      else (1, [(i, c)])

/-- The random-permutation loop of `Run` (lines 162–169): `for _, idx :=
range rand.Perm(len(tc.cases))`. -/
def runPermLoop (cases : List GoValue) (beh : Option Nat → GoValue → Bool)
    (tp r : Bool) : List Nat → Nat × List (Nat × GoValue)
  | [] => (0, [])
  | i :: rest =>
      let c := cases.getD i default
      if runTest beh i c tp r then
        let res := runPermLoop cases beh tp r rest
        (res.1 + 1, (i, c) :: res.2)
      else (1, [(i, c)])

/-- `func (tc *Test) Run(function interface{}) int` (tbl.go lines 98–171).
The `runorder` argument is the value of the `tblTest.RunOrder` flag pointer,
`perm` the output of `rand.Perm(len(tc.cases))`.  Yields the invocation count
together with the invocation trace. -/
def Run (tc : Test) (function : FuncVal) (runorder : Option String)
    (perm : List Nat) : Except String (Nat × List (Nat × GoValue)) :=
  match function with
  | FuncVal.notFunc => Except.error "Was not provided a function."
  | FuncVal.fn fnIn fnOut beh =>
      match classify fnIn fnOut tc.vType with
      | Except.error e => Except.error e
      | Except.ok (twoInParams, hasOutParam) =>
          if tc.cases.length = 0 then Except.ok (0, [])
          else
            let ro := runOrder runorder
            if ro.2 then
              Except.ok (runOverrideLoop tc.cases beh twoInParams hasOutParam ro.1)
            else if tc.InOrder then
              Except.ok (runSeqLoop beh twoInParams hasOutParam 0 tc.cases)
            else
              Except.ok (runPermLoop tc.cases beh twoInParams hasOutParam perm)

/-! ## Derived characterizations

`Run`'s three loops all drive the test function along a list of in-range
indices; `stopTake` cuts such a list at the first index whose invocation
signals stop, `resolvedOrder` is the effective index list of the branch
`Run` takes, and the lemmas below reduce every loop to `stopTake` over
`resolvedOrder`. -/

/-- The case value the loops read at index `i` (`tc.cases[idx]`). -/
def caseAt (cases : List GoValue) (i : Nat) : GoValue :=
  cases.getD i default

/-- The continue signal produced by invoking the function at index `i`. -/
def sigAt (cases : List GoValue) (beh : Option Nat → GoValue → Bool)
    (tp r : Bool) (i : Nat) : Bool :=
  runTest beh i (caseAt cases i) tp r

/-- The `(index, testcase)` pair of an invocation at index `i`. -/
def invPair (cases : List GoValue) (i : Nat) : Nat × GoValue :=
  (i, caseAt cases i)

/-- Prefix of an index list up to and including the first stop signal. -/
def stopTake (sig : Nat → Bool) : List Nat → List Nat
  | [] => []
  | i :: rest => if sig i then i :: stopTake sig rest else [i]

/-- The effective index order of the branch `Run` takes: the in-range
override indices when the override is non-empty, else `0, …, n-1` when
`InOrder`, else the random permutation. -/
def resolvedOrder (tc : Test) (runorder : Option String) (perm : List Nat) :
    List Nat :=
  let ro := runOrder runorder
  if ro.2 then (ro.1.filter (fun idx => !skipIdx tc.cases.length idx)).map Int.toNat
  else if tc.InOrder then List.range tc.cases.length
  else perm

/-- A test function that never signals stop: it either has no result
(form A/C) or always returns `true`. -/
def alwaysContinue (beh : Option Nat → GoValue → Bool) (r : Bool) : Prop :=
  r = false ∨ ∀ oi v, beh oi v = true

/-- The shape-validation failure conditions as the specification enumerates
them: not callable; parameter count not 1 or 2; an arity-1 parameter or
arity-2 second parameter differing from the element type; an arity-2 first
parameter that is not `int`; more than one result; a single non-`bool`
result. -/
def specShapeInvalid : FuncVal → Option GoType → Prop
  | FuncVal.notFunc, _ => True
  | FuncVal.fn fnIn fnOut _, elementType =>
      (match fnIn with
       | [p0] => some p0 ≠ elementType
       | [p0, p1] => p0 ≠ GoType.int ∨ some p1 ≠ elementType
       | _ => True) ∨
      (match fnOut with
       | [] => False
       | [o0] => o0 ≠ GoType.bool
       | _ => True)

/-- The construction-failure conditions as the specification states them:
some element is an invalid (untyped-nil) value, or some subsequent element's
runtime type differs from the first element's type. -/
def specBuildRejects (input : List GoIface) : Bool :=
  input.any (fun x => x.isNone) ||
  (match input with
   | some v :: rest =>
       rest.any (fun x =>
         match x with
         | some w => decide (w.typ ≠ v.typ)
         | none => false)
   | _ => false)

/-! ## Concrete values used by witnesses and counterexamples -/

/-- A sample element type. -/
def tT : GoType := GoType.other "T"

/-- Sample case values of type `tT`. -/
def w0 : GoValue := ⟨tT, 100⟩

/-- Sample case value 1. -/
def w1 : GoValue := ⟨tT, 101⟩

/-- Sample case value 2. -/
def w2 : GoValue := ⟨tT, 102⟩

/-- Sample case value 3. -/
def w3 : GoValue := ⟨tT, 103⟩

/-- A 4-element collection over `tT`. -/
def tc4 : Test := ⟨[w0, w1, w2, w3], some tT, false⟩

/-- The same collection with `InOrder` set. -/
def tc4io : Test := ⟨[w0, w1, w2, w3], some tT, true⟩

/-- A form-A test function (`func(tc T)`) for `tT`, no result. -/
def fnA : FuncVal := FuncVal.fn [tT] [] (fun _ _ => true)

/-- A form-D test function (`func(idx int, tc T) bool`) that always stops. -/
def fnDstop : FuncVal := FuncVal.fn [GoType.int, tT] [GoType.bool] (fun _ _ => false)

/-- A form-D test function that always continues. -/
def fnD : FuncVal := FuncVal.fn [GoType.int, tT] [GoType.bool] (fun _ _ => true)

/-- The collection produced by `Cases()` with no arguments. -/
def emptyT : Test := ⟨[], none, false⟩

/-! ## Loop lemmas -/

/-- Each loop of `Run` produces the invocations along the prefix of its index
list cut at the first stop signal; `runPermLoop` is the guard-free loop. -/
theorem runPermLoop_eq_stopTake (cases : List GoValue)
    (beh : Option Nat → GoValue → Bool) (tp r : Bool) (l : List Nat) :
    runPermLoop cases beh tp r l =
      ((stopTake (sigAt cases beh tp r) l).length,
       (stopTake (sigAt cases beh tp r) l).map (invPair cases)) := by
  induction l with
  | nil => rfl
  | cons i rest ih =>
      have hs : sigAt cases beh tp r i = runTest beh i (cases.getD i default) tp r := rfl
      simp only [runPermLoop, stopTake, ih, ← hs]
      by_cases h : sigAt cases beh tp r i
      · simp [h, invPair, caseAt]
      · simp [h, invPair, caseAt]

/-- If no index in the list signals stop, `stopTake` keeps the whole list. -/
theorem stopTake_all_true {sig : Nat → Bool} {l : List Nat}
    (h : ∀ i ∈ l, sig i = true) : stopTake sig l = l := by
  induction l with
  | nil => rfl
  | cons i rest ih =>
      simp [stopTake, h i (List.mem_cons_self i rest),
        ih fun j hj => h j (List.mem_cons_of_mem _ hj)]

/-- If the first stop signal happens at `i0`, `stopTake` keeps everything up
to and including `i0`. -/
theorem stopTake_first_false {sig : Nat → Bool} {l1 l2 : List Nat} {i0 : Nat}
    (h1 : ∀ i ∈ l1, sig i = true) (h0 : sig i0 = false) :
    stopTake sig (l1 ++ i0 :: l2) = l1 ++ [i0] := by
  induction l1 with
  | nil => simp [stopTake, h0]
  | cons i rest ih =>
      simp [stopTake, h1 i (by simp),
        ih fun j hj => h1 j (List.mem_cons_of_mem _ hj), h0]

/-- `stopTake` only keeps indices of the original list. -/
theorem mem_of_mem_stopTake {sig : Nat → Bool} {l : List Nat} {i : Nat}
    (h : i ∈ stopTake sig l) : i ∈ l := by
  induction l with
  | nil => simp [stopTake] at h
  | cons j rest ih =>
      by_cases hj : sig j
      · rcases (by simpa [stopTake, hj] using h : i = j ∨ i ∈ stopTake sig rest) with h' | h'
        · simp [h']
        · simp [ih h']
      · simp only [stopTake, hj] at h
        simp at h
        simp [h]

/-- The override loop is the guard-free loop over the in-range indices. -/
theorem runOverrideLoop_eq (cases : List GoValue)
    (beh : Option Nat → GoValue → Bool) (tp r : Bool) (l : List Int) :
    runOverrideLoop cases beh tp r l =
      runPermLoop cases beh tp r
        ((l.filter (fun idx => !skipIdx cases.length idx)).map Int.toNat) := by
  induction l with
  | nil => rfl
  | cons idx rest ih =>
      simp only [runOverrideLoop]
      by_cases h : skipIdx cases.length idx
      · simp [h, ih]
      · simp [h, runPermLoop, ih]

/-- Reading just past a prefix of an append picks the cons head. -/
theorem getD_append_length (pre : List GoValue) (c : GoValue)
    (rest : List GoValue) :
    (pre ++ c :: rest).getD pre.length default = c := by
  rw [List.getD_eq_getElem?_getD, List.getElem?_append_right (le_refl pre.length)]
  simp

/-- The `InOrder` loop is the guard-free loop over consecutive indices. -/
theorem runSeqLoop_eq (beh : Option Nat → GoValue → Bool) (tp r : Bool) :
    ∀ (l pre : List GoValue),
      runSeqLoop beh tp r pre.length l =
        runPermLoop (pre ++ l) beh tp r (List.range' pre.length l.length)
  | [], pre => rfl
  | c :: rest, pre => by
      have hc : (pre ++ c :: rest).getD pre.length default = c :=
        getD_append_length pre c rest
      have ih := runSeqLoop_eq beh tp r rest (pre ++ [c])
      simp only [List.length_append, List.length_cons, List.length_nil,
        List.append_assoc, List.singleton_append, Nat.zero_add] at ih
      simp only [runSeqLoop, runPermLoop, List.length_cons, List.range'_succ, hc]
      rw [ih]

/-- Master lemma: when the shape checks pass and the collection is
non-empty, `Run` performs the guard-free loop along the resolved order. -/
theorem Run_classify_ok (tc : Test) (fnIn fnOut : List GoType)
    (beh : Option Nat → GoValue → Bool) (tp r : Bool) (s : Option String)
    (perm : List Nat)
    (hcl : classify fnIn fnOut tc.vType = Except.ok (tp, r))
    (hne : tc.cases.length ≠ 0) :
    Run tc (FuncVal.fn fnIn fnOut beh) s perm =
      Except.ok (runPermLoop tc.cases beh tp r (resolvedOrder tc s perm)) := by
  simp only [Run]
  rw [hcl]
  simp only [hne, if_false, resolvedOrder]
  by_cases h1 : (runOrder s).2
  · simp [h1, runOverrideLoop_eq]
  · by_cases h2 : tc.InOrder
    · have hseq := runSeqLoop_eq beh tp r tc.cases []
      simp only [List.length_nil, List.nil_append] at hseq
      simp [h1, h2, hseq, List.range_eq_range' tc.cases.length]
    · simp [h1, h2]

/-- A never-stopping test function always signals continue. -/
theorem sigAt_of_alwaysContinue {beh : Option Nat → GoValue → Bool} {r : Bool}
    (h : alwaysContinue beh r) (cases : List GoValue) (tp : Bool) (i : Nat) :
    sigAt cases beh tp r i = true := by
  unfold sigAt runTest
  rcases h with h | h
  · simp [h]
  · simp [h]

/-- The indices of the invocation pairs are the driven index list itself. -/
theorem map_fst_invPair (cases : List GoValue) (l : List Nat) :
    (l.map (invPair cases)).map Prod.fst = l := by
  induction l with
  | nil => rfl
  | cons i rest ih => simp [invPair, ih]

/-- Every index in the resolved order is in range, provided the supplied
permutation is (as `rand.Perm` guarantees). -/
theorem mem_resolvedOrder_lt {tc : Test} {s : Option String} {perm : List Nat}
    (hp : ∀ i ∈ perm, i < tc.cases.length) :
    ∀ i ∈ resolvedOrder tc s perm, i < tc.cases.length := by
  intro i hi
  unfold resolvedOrder at hi
  by_cases h1 : (runOrder s).2
  · simp only [h1, if_true, List.mem_map, List.mem_filter] at hi
    obtain ⟨idx, ⟨-, hkeep⟩, rfl⟩ := hi
    simp only [skipIdx, Bool.not_or, Bool.and_eq_true, Bool.not_eq_true',
      decide_eq_false_iff_not, not_lt, not_le] at hkeep
    omega
  · by_cases h2 : tc.InOrder
    · simp only [h1, h2, if_false, if_true] at hi
      exact List.mem_range.mp hi
    · simp only [h1, h2, if_false] at hi
      exact hp i hi

/-- When the shape check panics, `Run` propagates the panic unchanged. -/
theorem Run_classify_error (tc : Test) (fnIn fnOut : List GoType)
    (beh : Option Nat → GoValue → Bool) (s : Option String) (perm : List Nat)
    (e : String) (hcl : classify fnIn fnOut tc.vType = Except.error e) :
    Run tc (FuncVal.fn fnIn fnOut beh) s perm = Except.error e := by
  simp only [Run]
  rw [hcl]

/-- When the shape check passes, `Run` never panics: every branch after it
returns a count. -/
theorem Run_ok_of_classify_ok (tc : Test) (fnIn fnOut : List GoType)
    (beh : Option Nat → GoValue → Bool) (tp r : Bool) (s : Option String)
    (perm : List Nat) (hcl : classify fnIn fnOut tc.vType = Except.ok (tp, r)) :
    ∃ res, Run tc (FuncVal.fn fnIn fnOut beh) s perm = Except.ok res := by
  simp only [Run]
  rw [hcl]
  by_cases h0 : tc.cases.length = 0
  · simp [h0]
  · simp only [h0, if_false]
    by_cases h1 : (runOrder s).2 <;> by_cases h2 : tc.InOrder <;> simp [h1, h2]

/-- The result switch panics exactly on more than one result or a single
non-`bool` result. -/
theorem classifyOut_error_iff (fnOut : List GoType) (b : Bool) :
    (∃ e, classifyOut fnOut b = Except.error e) ↔
      (match fnOut with
       | [] => False
       | [o0] => o0 ≠ GoType.bool
       | _ => True) := by
  match fnOut with
  | [] => simp [classifyOut]
  | [o0] =>
      by_cases h : o0 = GoType.bool
      · simp [classifyOut, h]
      · simp [classifyOut, h]
  | _ :: _ :: _ => simp [classifyOut]

/-- The shape check panics exactly on the conditions the spec enumerates. -/
theorem classify_error_iff (fnIn fnOut : List GoType) (vType : Option GoType)
    (beh : Option Nat → GoValue → Bool) :
    (∃ e, classify fnIn fnOut vType = Except.error e) ↔
      specShapeInvalid (FuncVal.fn fnIn fnOut beh) vType := by
  match fnIn with
  | [] => simp [classify, specShapeInvalid]
  | [p0] =>
      by_cases h : some p0 = vType
      · simp [classify, specShapeInvalid, h, classifyOut_error_iff fnOut false]
      · simp [classify, specShapeInvalid, h]
  | [p0, p1] =>
      by_cases h0 : p0 = GoType.int
      · by_cases h1 : some p1 = vType
        · simp [classify, specShapeInvalid, h0, h1, classifyOut_error_iff fnOut true]
        · simp [classify, specShapeInvalid, h0, h1]
      · simp [classify, specShapeInvalid, h0]
  | _ :: _ :: _ :: _ => simp [classify, specShapeInvalid]

/-- Against the nil element type of an empty collection, the parameter check
fails for every function: no parameter type equals a nil `reflect.Type`. -/
theorem classify_vType_none_error (fnIn fnOut : List GoType) :
    ∃ e, classify fnIn fnOut none = Except.error e := by
  rw [classify_error_iff fnIn fnOut none (fun _ _ => true)]
  match fnIn with
  | [] => simp [specShapeInvalid]
  | [p0] => simp [specShapeInvalid]
  | [p0, p1] =>
      by_cases h0 : p0 = GoType.int
      · simp [specShapeInvalid, h0]
      · simp [specShapeInvalid, h0]
  | _ :: _ :: _ :: _ => simp [specShapeInvalid]

/-- In-bounds lookup: `cases[i]?` is exactly the value the loops read. -/
theorem getElem?_eq_some_caseAt {cases : List GoValue} {i : Nat}
    (h : i < cases.length) : cases[i]? = some (caseAt cases i) := by
  rw [List.getElem?_eq_getElem h]
  simp [caseAt, List.getD_eq_getElem?_getD, List.getElem?_eq_getElem h]

/-- The external flag yields an order exactly when it parses non-empty. -/
theorem runOrder_ok_iff (s : Option String) :
    (runOrder s).2 = true ↔ (runOrder s).1 ≠ [] := by
  match s with
  | none => simp [runOrder]
  | some str =>
      by_cases h : str = ""
      · simp [runOrder, h]
      · simp [runOrder, h, List.length_pos]

/-- `Cases` accepts a tail whose elements all carry the established element
type, appending them in order. -/
theorem casesLoop_all_match (rest : List GoIface) :
    ∀ (i : Nat) (acc : List GoValue) (t : GoType),
      (∀ x ∈ rest, ∃ w, x = some w ∧ w.typ = t) →
      casesLoop i ⟨acc, some t, false⟩ rest =
        Except.ok ⟨acc ++ rest.filterMap id, some t, false⟩ := by
  induction rest with
  | nil => intro i acc t _; simp [casesLoop]
  | cons x rest ih =>
      intro i acc t h
      obtain ⟨w, rfl, hw⟩ := h x (List.mem_cons_self x rest)
      have hne : ¬ w.typ ≠ t := by simp [hw]
      simp only [casesLoop, hne, if_false]
      rw [ih (i + 1) (acc ++ [w]) t fun y hy => h y (List.mem_cons_of_mem _ hy)]
      simp

/-- `Cases` aborts as soon as the tail holds an invalid value or a value of
another type than the established element type. -/
theorem casesLoop_reject (rest : List GoIface) :
    ∀ (i : Nat) (acc : List GoValue) (t : GoType),
      (∃ x ∈ rest, x = none ∨ ∃ w, x = some w ∧ w.typ ≠ t) →
      ∃ e, casesLoop i ⟨acc, some t, false⟩ rest = Except.error e := by
  induction rest with
  | nil => intro i acc t h; simp at h
  | cons x rest ih =>
      intro i acc t h
      match x with
      | none => exact ⟨_, rfl⟩
      | some w =>
          by_cases hw : w.typ = t
          · have hne : ¬ w.typ ≠ t := by simp [hw]
            simp only [casesLoop, hne, if_false]
            refine ih (i + 1) (acc ++ [w]) t ?_
            obtain ⟨y, hy, hbad⟩ := h
            rcases List.mem_cons.mp hy with rfl | hy'
            · rcases hbad with h' | ⟨w', hw', hty⟩
              · exact absurd h' (by simp)
              · rw [show w = w' by injection hw'] at hw
                exact absurd hw hty
            · exact ⟨y, hy', hbad⟩
          · exact ⟨"Testcases should be of the type of the first element.",
              by simp [casesLoop, hw]⟩

/-! ## Claims -/

/-- C1 counterexample: with external override "1,3,1" in effect on a
4-element collection and a form-A always-continue callable, Run performs 3
invocations — not `len(cases) = 4` — and index 1 is delivered twice while 0
and 2 are never delivered, refuting the claim for the external-override
order mode. -/
theorem C1_counterexample :
    Run tc4 fnA (some "1,3,1") [0, 1, 2, 3] =
      Except.ok (3, [(1, w1), (3, w3), (1, w1)]) ∧ (3 : Nat) ≠ tc4.cases.length :=
  ⟨rfl, by decide⟩

/-- C1 (amended): for a non-empty collection built from same-typed values
and an accepted-form callable that never returns false (or returns
nothing), Run invokes the callable exactly `len(cases)` times and delivers
every case index exactly once, in the in-order and random order modes, i.e.
whenever no non-empty external override is in effect. -/
theorem C1_full_coverage (input : List GoIface) (tc : Test)
    (fnIn fnOut : List GoType) (beh : Option Nat → GoValue → Bool)
    (tp r : Bool) (s : Option String) (perm : List Nat)
    (hbuild : Cases input = Except.ok ⟨tc.cases, tc.vType, false⟩)
    (hne : tc.cases.length ≠ 0)
    (hcl : classify fnIn fnOut tc.vType = Except.ok (tp, r))
    (hcont : alwaysContinue beh r)
    (hover : (runOrder s).2 = false) :
    (tc.InOrder = true →
      ∃ tr, Run tc (FuncVal.fn fnIn fnOut beh) s perm =
          Except.ok (tc.cases.length, tr) ∧
        tr.map Prod.fst = List.range tc.cases.length) ∧
    (tc.InOrder = false → perm.Perm (List.range tc.cases.length) →
      ∃ tr, Run tc (FuncVal.fn fnIn fnOut beh) s perm =
          Except.ok (tc.cases.length, tr) ∧
        (tr.map Prod.fst).Perm (List.range tc.cases.length)) := by
  have hall : ∀ l : List Nat, stopTake (sigAt tc.cases beh tp r) l = l :=
    fun l => stopTake_all_true fun i _ => sigAt_of_alwaysContinue hcont tc.cases tp i
  constructor
  · intro hio
    have hres : resolvedOrder tc s perm = List.range tc.cases.length := by
      simp [resolvedOrder, hover, hio]
    refine ⟨(List.range tc.cases.length).map (invPair tc.cases), ?_, ?_⟩
    · rw [Run_classify_ok tc fnIn fnOut beh tp r s perm hcl hne, hres,
        runPermLoop_eq_stopTake, hall]
      simp
    · rw [map_fst_invPair]
  · intro hio hperm
    have hres : resolvedOrder tc s perm = perm := by
      simp [resolvedOrder, hover, hio]
    refine ⟨perm.map (invPair tc.cases), ?_, ?_⟩
    · rw [Run_classify_ok tc fnIn fnOut beh tp r s perm hcl hne, hres,
        runPermLoop_eq_stopTake, hall]
      simp [hperm.length_eq]
    · rw [map_fst_invPair]
      exact hperm

/-- C1 witness: the amended claim at a concrete 4-element collection, for
both the in-order mode and the random mode. -/
theorem C1_full_coverage_witness :
    (∃ tr, Run tc4io fnA none [0, 1, 2, 3] = Except.ok (4, tr) ∧
      tr.map Prod.fst = List.range 4) ∧
    (∃ tr, Run tc4 fnA none [2, 0, 3, 1] = Except.ok (4, tr) ∧
      (tr.map Prod.fst).Perm (List.range 4)) := by
  have hio := C1_full_coverage [some w0, some w1, some w2, some w3] tc4io
    [tT] [] (fun _ _ => true) false false none [0, 1, 2, 3]
    rfl (by decide) rfl (Or.inl rfl) rfl
  have hrand := C1_full_coverage [some w0, some w1, some w2, some w3] tc4
    [tT] [] (fun _ _ => true) false false none [2, 0, 3, 1]
    rfl (by decide) rfl (Or.inl rfl) rfl
  exact ⟨hio.1 rfl, hrand.2 rfl (by decide)⟩

/-- C2: if along the resolved order the first k-1 invocations signal
continue and the k-th signals stop (the callable returns false for the
first time on the k-th invocation), Run returns exactly k and the
invocations performed are exactly the first k positions of the resolved
order — nothing after the stopping position is invoked. -/
theorem C2_early_stop (tc : Test) (fnIn fnOut : List GoType)
    (beh : Option Nat → GoValue → Bool) (tp r : Bool) (s : Option String)
    (perm : List Nat) (l1 l2 : List Nat) (i0 : Nat) (k : Nat)
    (hcl : classify fnIn fnOut tc.vType = Except.ok (tp, r))
    (hne : tc.cases.length ≠ 0)
    (horder : resolvedOrder tc s perm = l1 ++ i0 :: l2)
    (h1 : ∀ i ∈ l1, sigAt tc.cases beh tp r i = true)
    (h0 : sigAt tc.cases beh tp r i0 = false)
    (hk : k = l1.length + 1) :
    Run tc (FuncVal.fn fnIn fnOut beh) s perm =
      Except.ok (k, (l1 ++ [i0]).map (invPair tc.cases)) := by
  rw [Run_classify_ok tc fnIn fnOut beh tp r s perm hcl hne, horder,
    runPermLoop_eq_stopTake, stopTake_first_false h1 h0]
  simp [hk]

/-- C2 witness: an always-false form-D callable on a 4-element in-order
collection stops after exactly one invocation, at index 0. -/
theorem C2_early_stop_witness :
    Run tc4io fnDstop none [0, 1, 2, 3] = Except.ok (1, [(0, w0)]) := by
  have h := C2_early_stop tc4io [GoType.int, tT] [GoType.bool]
    (fun _ _ => false) true true none [0, 1, 2, 3] [] [1, 2, 3] 0 1
    rfl (by decide) (by decide) (by simp) rfl rfl
  exact h

/-- C3: with a non-empty external override in effect, an always-continue
callable is invoked with exactly the parsed in-range indices in the given
order — duplicates kept, out-of-range and negative entries skipped without
incrementing the count — and in particular override "1,3,1" on a 4-element
collection yields indices 1, 3, 1 (count 3) and "1,9,2" yields 1, 2
(count 2). -/
theorem C3_override_trace :
    (∀ (tc : Test) (fnIn fnOut : List GoType) (beh : Option Nat → GoValue → Bool)
      (tp r : Bool) (s : String) (perm : List Nat),
      classify fnIn fnOut tc.vType = Except.ok (tp, r) →
      tc.cases.length ≠ 0 →
      alwaysContinue beh r →
      (runOrder (some s)).2 = true →
      Run tc (FuncVal.fn fnIn fnOut beh) (some s) perm =
        Except.ok
          ((((runOrder (some s)).1.filter
              (fun idx => !skipIdx tc.cases.length idx)).map Int.toNat).length,
           (((runOrder (some s)).1.filter
              (fun idx => !skipIdx tc.cases.length idx)).map Int.toNat).map
             (invPair tc.cases))) ∧
    Run tc4 fnA (some "1,3,1") [0, 1, 2, 3] =
      Except.ok (3, [(1, w1), (3, w3), (1, w1)]) ∧
    Run tc4 fnA (some "1,9,2") [0, 1, 2, 3] =
      Except.ok (2, [(1, w1), (2, w2)]) := by
  refine ⟨?_, rfl, rfl⟩
  intro tc fnIn fnOut beh tp r s perm hcl hne hcont hov
  have hres : resolvedOrder tc (some s) perm =
      ((runOrder (some s)).1.filter
        (fun idx => !skipIdx tc.cases.length idx)).map Int.toNat := by
    simp [resolvedOrder, hov]
  rw [Run_classify_ok tc fnIn fnOut beh tp r (some s) perm hcl hne, hres,
    runPermLoop_eq_stopTake,
    stopTake_all_true fun i _ => sigAt_of_alwaysContinue hcont tc.cases tp i]

/-- C3 witness: the general part applied to override "1,3,1" with a form-D
callable. -/
theorem C3_override_trace_witness :
    Run tc4 fnD (some "1,3,1") [] = Except.ok (3, [(1, w1), (3, w3), (1, w1)]) := by
  have h := C3_override_trace.1 tc4 [GoType.int, tT] [GoType.bool]
    (fun _ _ => true) true true "1,3,1" [] rfl (by decide)
    (Or.inr fun oi v => rfl) rfl
  exact h

/-- C4: with `InOrder` set and no external override in effect, the indices
delivered to an always-continue callable are exactly `0, 1, …, n-1`. -/
theorem C4_inorder_sequence (tc : Test) (fnIn fnOut : List GoType)
    (beh : Option Nat → GoValue → Bool) (tp r : Bool) (s : Option String)
    (perm : List Nat)
    (hcl : classify fnIn fnOut tc.vType = Except.ok (tp, r))
    (hcont : alwaysContinue beh r)
    (hio : tc.InOrder = true)
    (hover : (runOrder s).2 = false) :
    ∃ tr, Run tc (FuncVal.fn fnIn fnOut beh) s perm =
        Except.ok (tc.cases.length, tr) ∧
      tr.map Prod.fst = List.range tc.cases.length := by
  by_cases hne : tc.cases.length = 0
  · refine ⟨[], ?_, by simp [hne]⟩
    simp only [Run]
    rw [hcl]
    simp [hne]
  · have hres : resolvedOrder tc s perm = List.range tc.cases.length := by
      simp [resolvedOrder, hover, hio]
    refine ⟨(List.range tc.cases.length).map (invPair tc.cases), ?_, map_fst_invPair _ _⟩
    rw [Run_classify_ok tc fnIn fnOut beh tp r s perm hcl hne, hres,
      runPermLoop_eq_stopTake,
      stopTake_all_true fun i _ => sigAt_of_alwaysContinue hcont tc.cases tp i]
    simp

/-- C4 witness: the in-order index sequence on a concrete 4-element
collection. -/
theorem C4_inorder_sequence_witness :
    ∃ tr, Run tc4io fnA none [] = Except.ok (4, tr) ∧
      tr.map Prod.fst = List.range 4 := by
  have h := C4_inorder_sequence tc4io [tT] [] (fun _ _ => true) false false
    none [] rfl (Or.inl rfl) rfl rfl
  exact h

/-- C5: order-source precedence.  A nil or empty override string, or one
none of whose comma-separated tokens parses, yields no override; unparseable
tokens are silently dropped by the comma-split parse; the override is in
effect exactly when the parsed list is non-empty, in which case it
determines the invocation order regardless of `InOrder`; otherwise `InOrder`
selects the sequential order and failing that the random permutation is
used. -/
theorem C5_order_precedence :
    runOrder none = ([], false) ∧
    runOrder (some "") = ([], false) ∧
    (∀ s : String, s ≠ "" →
      (runOrder (some s)).1 = (splitChars [] s.data).filterMap parseInt64) ∧
    (∀ s : Option String, (runOrder s).2 = true ↔ (runOrder s).1 ≠ []) ∧
    (∀ (tc : Test) (fnIn fnOut : List GoType) (beh : Option Nat → GoValue → Bool)
      (tp r : Bool) (s : Option String) (perm : List Nat),
      classify fnIn fnOut tc.vType = Except.ok (tp, r) →
      tc.cases.length ≠ 0 →
      alwaysContinue beh r →
      ((runOrder s).1 ≠ [] →
        ∃ tr, Run tc (FuncVal.fn fnIn fnOut beh) s perm = Except.ok (tr.length, tr) ∧
          tr.map Prod.fst = ((runOrder s).1.filter
            (fun idx => !skipIdx tc.cases.length idx)).map Int.toNat) ∧
      ((runOrder s).1 = [] → tc.InOrder = true →
        ∃ tr, Run tc (FuncVal.fn fnIn fnOut beh) s perm = Except.ok (tr.length, tr) ∧
          tr.map Prod.fst = List.range tc.cases.length) ∧
      ((runOrder s).1 = [] → tc.InOrder = false →
        ∃ tr, Run tc (FuncVal.fn fnIn fnOut beh) s perm = Except.ok (tr.length, tr) ∧
          tr.map Prod.fst = perm)) := by
  refine ⟨rfl, rfl, fun s hs => by simp [runOrder, hs], runOrder_ok_iff, ?_⟩
  intro tc fnIn fnOut beh tp r s perm hcl hne hcont
  have hall : ∀ l : List Nat, stopTake (sigAt tc.cases beh tp r) l = l :=
    fun l => stopTake_all_true fun i _ => sigAt_of_alwaysContinue hcont tc.cases tp i
  have hlen : ∀ l : List Nat, (l.map (invPair tc.cases)).length = l.length :=
    fun l => by simp
  refine ⟨?_, ?_, ?_⟩
  · intro hpn
    have hov : (runOrder s).2 = true := (runOrder_ok_iff s).mpr hpn
    have hres : resolvedOrder tc s perm =
        ((runOrder s).1.filter (fun idx => !skipIdx tc.cases.length idx)).map Int.toNat := by
      simp [resolvedOrder, hov]
    refine ⟨(((runOrder s).1.filter
        (fun idx => !skipIdx tc.cases.length idx)).map Int.toNat).map (invPair tc.cases),
      ?_, map_fst_invPair _ _⟩
    rw [Run_classify_ok tc fnIn fnOut beh tp r s perm hcl hne, hres,
      runPermLoop_eq_stopTake, hall, hlen]
  · intro hpe hio
    have hov : (runOrder s).2 = false := by
      rcases Bool.eq_false_or_eq_true (runOrder s).2 with h | h
      · exact absurd hpe ((runOrder_ok_iff s).mp h)
      · exact h
    have hres : resolvedOrder tc s perm = List.range tc.cases.length := by
      simp [resolvedOrder, hov, hio]
    refine ⟨(List.range tc.cases.length).map (invPair tc.cases), ?_, map_fst_invPair _ _⟩
    rw [Run_classify_ok tc fnIn fnOut beh tp r s perm hcl hne, hres,
      runPermLoop_eq_stopTake, hall, hlen]
  · intro hpe hio
    have hov : (runOrder s).2 = false := by
      rcases Bool.eq_false_or_eq_true (runOrder s).2 with h | h
      · exact absurd hpe ((runOrder_ok_iff s).mp h)
      · exact h
    have hres : resolvedOrder tc s perm = perm := by
      simp [resolvedOrder, hov, hio]
    refine ⟨perm.map (invPair tc.cases), ?_, map_fst_invPair _ _⟩
    rw [Run_classify_ok tc fnIn fnOut beh tp r s perm hcl hne, hres,
      runPermLoop_eq_stopTake, hall, hlen]

/-- C5 witness: the override "2,0" beats the `InOrder` flag on a concrete
collection, and with no override the same collection runs in order. -/
theorem C5_order_precedence_witness :
    (∃ tr, Run tc4io fnA (some "2,0") [] = Except.ok (tr.length, tr) ∧
      tr.map Prod.fst = [2, 0]) ∧
    (∃ tr, Run tc4io fnA none [] = Except.ok (tr.length, tr) ∧
      tr.map Prod.fst = List.range tc4io.cases.length) := by
  have h := C5_order_precedence.2.2.2.2 tc4io [tT] [] (fun _ _ => true)
    false false (some "2,0") [] rfl (by decide) (Or.inl rfl)
  have h' := C5_order_precedence.2.2.2.2 tc4io [tT] [] (fun _ _ => true)
    false false none [] rfl (by decide) (Or.inl rfl)
  obtain ⟨tr, h1, h2⟩ := h.1 (by decide)
  exact ⟨⟨tr, h1, by rw [h2]; decide⟩, h'.2.1 rfl rfl⟩


/-- C6 counterexample: on the collection built from zero elements even a
callable that is well-formed for non-empty collections (form A) makes `Run`
abort in shape validation — `Run` does not return a count of 0. -/
theorem C6_counterexample :
    Run emptyT fnA none [] =
      Except.error "Incorrect parameter for test function given." ∧
    ¬ ∃ tr, Run emptyT fnA none [] = Except.ok (0, tr) := by
  refine ⟨rfl, ?_⟩
  rintro ⟨tr, h⟩
  exact Except.noConfusion
    ((rfl : (Except.error "Incorrect parameter for test function given." :
        Except String (Nat × List (Nat × GoValue))) = Run emptyT fnA none []).trans h)

/-- C6 (amended): `Run` performs callable-shape validation before the
empty-collection check, and for a collection built from zero elements the
validation runs against the nil element type, so every argument value — not
callable, wrong arity, or any function, since no parameter type equals the
nil type — makes `Run` abort; the `return 0` path is never reached. -/
theorem C6_empty_always_aborts (tc : Test) (f : FuncVal) (s : Option String)
    (perm : List Nat) (hbuild : Cases [] = Except.ok tc) :
    ∃ e, Run tc f s perm = Except.error e := by
  have h0 : Except.ok (ε := String) emptyT = Except.ok tc :=
    (rfl : Cases [] = Except.ok emptyT).symm.trans hbuild
  have htc : emptyT = tc := by injection h0
  subst htc
  match f with
  | FuncVal.notFunc => exact ⟨"Was not provided a function.", rfl⟩
  | FuncVal.fn fnIn fnOut beh =>
      obtain ⟨e, he⟩ := classify_vType_none_error fnIn fnOut
      exact ⟨e, Run_classify_error emptyT fnIn fnOut beh s perm e he⟩

/-- C6 witness: the amended claim at a concrete argument (a non-callable). -/
theorem C6_empty_always_aborts_witness :
    ∃ e, Run emptyT FuncVal.notFunc none [] = Except.error e :=
  C6_empty_always_aborts emptyT FuncVal.notFunc none [] rfl

/-- C7: `Run` aborts — returning no count, hence before any invocation — if
and only if the argument fails shape validation as the spec enumerates it:
not callable, parameter count not 1 or 2, an arity-1 parameter or arity-2
second parameter differing from the element type, an arity-2 first parameter
that is not `int`, more than one result, or a single non-`bool` result; an
accepted-form callable is never aborted. -/
theorem C7_abort_iff_shape_invalid (tc : Test) (f : FuncVal) (s : Option String)
    (perm : List Nat) :
    (∃ e, Run tc f s perm = Except.error e) ↔ specShapeInvalid f tc.vType := by
  match f with
  | FuncVal.notFunc =>
      exact iff_of_true ⟨"Was not provided a function.", rfl⟩ trivial
  | FuncVal.fn fnIn fnOut beh =>
      rw [← classify_error_iff fnIn fnOut tc.vType beh]
      constructor
      · rintro ⟨e, he⟩
        cases hcl : classify fnIn fnOut tc.vType with
        | error e' => exact ⟨e', rfl⟩
        | ok p =>
            obtain ⟨tp, r⟩ := p
            obtain ⟨res, hres⟩ := Run_ok_of_classify_ok tc fnIn fnOut beh tp r s perm hcl
            rw [hres] at he
            exact Except.noConfusion he
      · rintro ⟨e, he⟩
        exact ⟨e, Run_classify_error tc fnIn fnOut beh s perm e he⟩

/-- C8: `Cases` aborts exactly when some element is an invalid (untyped-nil)
value or some subsequent element's runtime type differs from the first
element's; otherwise it returns the inputs as cases in input order with
`vType` the first element's type (and `InOrder` defaulted off). -/
theorem C8_cases_build_iff (input : List GoIface) :
    (specBuildRejects input = true → ∃ e, Cases input = Except.error e) ∧
    (specBuildRejects input = false →
      Cases input =
        Except.ok ⟨input.filterMap id, (input.head?.bind id).map GoValue.typ, false⟩) := by
  match input with
  | [] =>
      exact ⟨fun h => by simp [specBuildRejects] at h, fun _ => rfl⟩
  | none :: rest =>
      exact ⟨fun _ => ⟨"Testcase is not a valid test case.", rfl⟩,
        fun h => by simp [specBuildRejects] at h⟩
  | some v :: rest =>
      constructor
      · intro h
        simp only [specBuildRejects, Bool.or_eq_true, List.any_eq_true] at h
        have hbad : ∃ x ∈ rest, x = none ∨ ∃ w, x = some w ∧ w.typ ≠ v.typ := by
          rcases h with ⟨x, hx, hxn⟩ | ⟨x, hx, hxm⟩
          · rcases List.mem_cons.mp hx with rfl | hx'
            · simp at hxn
            · refine ⟨x, hx', Or.inl ?_⟩
              cases x with
              | none => rfl
              | some w => simp at hxn
          · refine ⟨x, hx, ?_⟩
            cases x with
            | none => exact Or.inl rfl
            | some w =>
                refine Or.inr ⟨w, rfl, ?_⟩
                simpa using hxm
        show ∃ e, casesLoop 0 ⟨[], none, false⟩ (some v :: rest) = Except.error e
        have hstep : casesLoop 0 ⟨[], none, false⟩ (some v :: rest) =
            casesLoop 1 ⟨[v], some v.typ, false⟩ rest := rfl
        rw [hstep]
        exact casesLoop_reject rest 1 [v] v.typ hbad
      · intro h
        simp only [specBuildRejects, Bool.or_eq_false_iff, List.any_eq_false] at h
        have hgood : ∀ x ∈ rest, ∃ w, x = some w ∧ w.typ = v.typ := by
          intro x hx
          cases x with
          | none =>
              exact absurd (by simp : (none : GoIface).isNone = true)
                (h.1 none (List.mem_cons_of_mem _ hx))
          | some w =>
              refine ⟨w, rfl, ?_⟩
              have := h.2 (some w) hx
              simpa using this
        show Cases (some v :: rest) = _
        have hstep : Cases (some v :: rest) =
            casesLoop 1 ⟨[v], some v.typ, false⟩ rest := rfl
        rw [hstep, casesLoop_all_match rest 1 [v] v.typ hgood]
        simp

/-- C8 witness: a mismatched pair aborts; a same-typed pair builds the
collection as given. -/
theorem C8_cases_build_iff_witness :
    (∃ e, Cases [some w0, some ⟨GoType.int, 5⟩] = Except.error e) ∧
    Cases [some w0, some w1] = Except.ok ⟨[w0, w1], some tT, false⟩ := by
  exact ⟨(C8_cases_build_iff [some w0, some ⟨GoType.int, 5⟩]).1 (by decide),
    (C8_cases_build_iff [some w0, some w1]).2 (by decide)⟩

/-- C9 (implicit): for the collection built from zero elements, `Run` aborts
for every function of arity 1 or 2, because shape validation runs before the
empty-collection check against the collection's nil element type, which no
concrete parameter type equals. -/
theorem C9_empty_run_arity12_aborts (tc : Test) (fnIn fnOut : List GoType)
    (beh : Option Nat → GoValue → Bool) (s : Option String) (perm : List Nat)
    (hbuild : Cases [] = Except.ok tc)
    (har : fnIn.length = 1 ∨ fnIn.length = 2) :
    ∃ e, Run tc (FuncVal.fn fnIn fnOut beh) s perm = Except.error e := by
  have h0 : Except.ok (ε := String) emptyT = Except.ok tc :=
    (rfl : Cases [] = Except.ok emptyT).symm.trans hbuild
  have htc : emptyT = tc := by injection h0
  subst htc
  obtain ⟨e, he⟩ := classify_vType_none_error fnIn fnOut
  exact ⟨e, Run_classify_error emptyT fnIn fnOut beh s perm e he⟩

/-- C9 witness: an arity-1 function with an `int` parameter aborts on the
empty collection. -/
theorem C9_empty_run_arity12_aborts_witness :
    ∃ e, Run emptyT (FuncVal.fn [GoType.int] [] (fun _ _ => true)) none [] =
      Except.error e :=
  C9_empty_run_arity12_aborts emptyT [GoType.int] [] (fun _ _ => true) none []
    rfl (Or.inl rfl)

/-- C10 (implicit): in every order mode, each invocation delivers a
consistent pair — the index passed alongside a case value is exactly that
value's position in the collection (`cases[i]` accompanied by `i`), also in
random and external-override modes. -/
theorem C10_index_case_consistency (tc : Test) (fnIn fnOut : List GoType)
    (beh : Option Nat → GoValue → Bool) (tp r : Bool) (s : Option String)
    (perm : List Nat) (c : Nat) (tr : List (Nat × GoValue))
    (hcl : classify fnIn fnOut tc.vType = Except.ok (tp, r))
    (htwo : fnIn.length = 2)
    (hp : ∀ i ∈ perm, i < tc.cases.length)
    (hrun : Run tc (FuncVal.fn fnIn fnOut beh) s perm = Except.ok (c, tr)) :
    ∀ p ∈ tr, p.1 < tc.cases.length ∧ tc.cases[p.1]? = some p.2 := by
  by_cases hne : tc.cases.length = 0
  · have hempty : Run tc (FuncVal.fn fnIn fnOut beh) s perm = Except.ok (0, []) := by
      simp only [Run]
      rw [hcl]
      simp [hne]
    have h2 := hempty.symm.trans hrun
    simp only [Except.ok.injEq, Prod.mk.injEq] at h2
    intro p hp'
    rw [← h2.2] at hp'
    simp at hp'
  · have h2 := (Run_classify_ok tc fnIn fnOut beh tp r s perm hcl hne).symm.trans hrun
    rw [runPermLoop_eq_stopTake] at h2
    simp only [Except.ok.injEq, Prod.mk.injEq] at h2
    intro p hp'
    rw [← h2.2] at hp'
    obtain ⟨i, hi, rfl⟩ := List.mem_map.mp hp'
    have hlt : i < tc.cases.length :=
      mem_resolvedOrder_lt hp i (mem_of_mem_stopTake hi)
    exact ⟨hlt, getElem?_eq_some_caseAt hlt⟩

/-- C10 witness: under override "2,0" with a form-D callable, the delivered
pair (2, w2) is consistent with the collection. -/
theorem C10_index_case_consistency_witness :
    (2, w2).1 < tc4.cases.length ∧ tc4.cases[(2, w2).1]? = some (2, w2).2 := by
  have h := C10_index_case_consistency tc4 [GoType.int, tT] [GoType.bool]
    (fun _ _ => true) true true (some "2,0") [] 2 [(2, w2), (0, w0)]
    rfl rfl (by simp) rfl
  exact h (2, w2) (by simp)

end Tbl
